import Mathlib

/-!
Shallow embedding of the particle-field engine of
`src/frontend/script.js` (lines 320–405).

Coordinates, velocities, radii and opacities are modelled as rationals
(the JavaScript numbers are IEEE doubles; every claim here is about the
exact arithmetic the source expresses, not about rounding).  The canvas
drawing context is modelled as a list of drawing commands, so that the
render phase is a pure function from the field state to the command
list.  `Math.random()` is modelled as an injected stream of rationals.
-/

namespace ParticleField

/-- A particle, as created by `createParticles` in the source:
`{x, y, vx, vy, radius, opacity, color}`.  `color` is `true` for
`'#00d4ff'` (cyan) and `false` for `'#7b2cbf'` (purple). -/
structure Particle where
  x : ℚ
  y : ℚ
  vx : ℚ
  vy : ℚ
  radius : ℚ
  opacity : ℚ
  color : Bool
deriving Repr, DecidableEq

/-- Default particle used by list lookups with `List.getD`. -/
def defaultParticle : Particle := ⟨0, 0, 0, 0, 0, 0, true⟩

/-- The engine state: the particle collection plus the canvas surface
dimensions (`canvas.width`, `canvas.height`). -/
structure EngineState where
  width : ℚ
  height : ℚ
  particles : List Particle
deriving Repr, DecidableEq

/-- `const NUM_PARTICLES = 80;` -/
def NUM_PARTICLES : ℕ := 80

/-- `const MAX_DISTANCE = 140;` -/
def MAX_DISTANCE : ℚ := 140

/-- `resizeCanvas`: sets `canvas.width`/`canvas.height` from the
viewport dimensions; touches nothing else. -/
def resizeCanvas (s : EngineState) (innerWidth innerHeight : ℚ) : EngineState :=
  { s with width := innerWidth, height := innerHeight }

/-- One particle of `createParticles`, with the seven `Math.random()`
draws for this particle supplied as `r 0 … r 6`:
`x = r0*w`, `y = r1*h`, `vx = (r2-0.5)*0.6`, `vy = (r3-0.5)*0.6`,
`radius = 1.5 + r4*2`, `opacity = 0.2 + r5*0.6`,
`color = r6 > 0.5 ? '#00d4ff' : '#7b2cbf'`. -/
def makeParticle (w h : ℚ) (r : Fin 7 → ℚ) : Particle :=
  { x := r 0 * w
    y := r 1 * h
    vx := (r 2 - 0.5) * 0.6
    vy := (r 3 - 0.5) * 0.6
    radius := 1.5 + r 4 * 2
    opacity := 0.2 + r 5 * 0.6
    color := decide (r 6 > 0.5) }

/-- `createParticles`: replaces the collection with `NUM_PARTICLES`
freshly sampled particles; `rand i` is the random stream used for the
`i`-th particle. -/
def createParticles (w h : ℚ) (rand : ℕ → Fin 7 → ℚ) : List Particle :=
  (List.range NUM_PARTICLES).map fun i => makeParticle w h (rand i)

/-- The body of the `updateParticles` loop for one particle, statement
by statement:
`p.x += p.vx; p.y += p.vy;`
`if (p.x < 0) p.x = canvas.width;`
`if (p.x > canvas.width) p.x = 0;`
`if (p.y < 0) p.y = canvas.height;`
`if (p.y > canvas.height) p.y = 0;` -/
def stepParticle (w h : ℚ) (p : Particle) : Particle :=
  let p1 := { p with x := p.x + p.vx }
  let p2 := { p1 with y := p1.y + p1.vy }
  let p3 := if p2.x < 0 then { p2 with x := w } else p2
  let p4 := if p3.x > w then { p3 with x := 0 } else p3
  let p5 := if p4.y < 0 then { p4 with y := h } else p4
  if p5.y > h then { p5 with y := 0 } else p5

/-- `updateParticles`: applies the loop body to every particle of the
collection, in place (modelled as a map). -/
def updateParticles (w h : ℚ) (ps : List Particle) : List Particle :=
  ps.map (stepParticle w h)

/-- The per-axis wraparound check, as one function of a single
coordinate: below 0 goes to the dimension, above the dimension goes
to 0.  Used to state that the sequential statements of the source act
per-axis independently. -/
def wrapCoord (dim c : ℚ) : ℚ :=
  let c1 := if c < 0 then dim else c
  if c1 > dim then 0 else c1

/-- Squared Euclidean distance between two particles
(`dx*dx + dy*dy` in the source, before `Math.sqrt`). -/
def dist2 (a b : Particle) : ℚ :=
  (a.x - b.x) * (a.x - b.x) + (a.y - b.y) * (a.y - b.y)

/-- The link decision of `drawParticles`:
`Math.sqrt(dx*dx+dy*dy) < MAX_DISTANCE`, stated equivalently on the
squared distance (`√d < 140 ↔ d < 140²` for `d ≥ 0`; the equivalence
with the real square root is proved below). -/
def linkNear (a b : Particle) : Bool :=
  dist2 a b < MAX_DISTANCE * MAX_DISTANCE

/-- The link alpha of `drawParticles`:
`alpha = 1 - dist / MAX_DISTANCE`, drawn with `alpha * 0.25`;
`d` is the Euclidean distance of the pair. -/
def linkAlpha (d : ℚ) : ℚ :=
  (1 - d / MAX_DISTANCE) * 0.25

/-- One drawing-context operation issued by `drawParticles`. -/
inductive DrawCmd where
  | clearRect (x y w h : ℚ)
  | circle (x y radius : ℚ) (color : Bool) (opacity : ℚ)
  | line (x1 y1 x2 y2 : ℚ)
deriving Repr, DecidableEq

/-- The first loop of `drawParticles`: one filled circle per particle,
in collection order. -/
def circleCmds (ps : List Particle) : List DrawCmd :=
  ps.map fun p => DrawCmd.circle p.x p.y p.radius p.color p.opacity

/-- The index pairs visited by the second (nested) loop of
`drawParticles`: `i` from `0` to `n-1`, `j` from `i+1` to `n-1`. -/
def pairsFrom (n : ℕ) : List (ℕ × ℕ) :=
  (List.range n).flatMap fun i =>
    (List.range' (i + 1) (n - (i + 1))).map fun j => (i, j)

/-- The pairs for which the nested loop actually strokes a line. -/
def drawnLinks (ps : List Particle) : List (ℕ × ℕ) :=
  (pairsFrom ps.length).filter fun ij =>
    linkNear (ps.getD ij.1 defaultParticle) (ps.getD ij.2 defaultParticle)

/-- The line segments stroked by the second loop of `drawParticles`. -/
def lineCmds (ps : List Particle) : List DrawCmd :=
  (drawnLinks ps).map fun ij =>
    DrawCmd.line (ps.getD ij.1 defaultParticle).x (ps.getD ij.1 defaultParticle).y
      (ps.getD ij.2 defaultParticle).x (ps.getD ij.2 defaultParticle).y

/-- `drawParticles`: clear the whole surface, then the circle loop,
then the link loop — in that source order. -/
def drawParticles (w h : ℚ) (ps : List Particle) : List DrawCmd :=
  DrawCmd.clearRect 0 0 w h :: (circleCmds ps ++ lineCmds ps)

/-- One tick of `animate`: `updateParticles(); drawParticles();`,
returning the new state and the frame's drawing commands
(`requestAnimationFrame(animate)` then schedules the next tick). -/
def tick (s : EngineState) : EngineState × List DrawCmd :=
  let s' := { s with particles := updateParticles s.width s.height s.particles }
  (s', drawParticles s'.width s'.height s'.particles)

/-- The states reached by the `animate` loop: each tick is followed by
exactly one scheduled next tick. -/
def frames (s : EngineState) : ℕ → EngineState
  | 0 => s
  | n + 1 => (tick (frames s n)).1

/-- `true` when a command is a stroked line segment. -/
def DrawCmd.isLine : DrawCmd → Bool
  | .line _ _ _ _ => true
  | _ => false

/-- `true` when a command is a filled particle circle. -/
def DrawCmd.isCircle : DrawCmd → Bool
  | .circle _ _ _ _ _ => true
  | _ => false

/-- `true` when no particle circle is issued before some later line
segment, i.e. when all links are drawn before all circles. -/
def noCircleBeforeLine : List DrawCmd → Bool
  | [] => true
  | c :: rest =>
      (if c.isCircle then rest.all fun d => !d.isLine else true) &&
        noCircleBeforeLine rest

end ParticleField

namespace ParticleField

/-! ### Shared helper lemmas -/

/-- The sequential statements of the update loop body are equivalent to
adding both velocity components and then wrapping each axis
independently. -/
theorem stepParticle_eq_wrap (w h : ℚ) (p : Particle) :
    stepParticle w h p =
      { p with x := wrapCoord w (p.x + p.vx), y := wrapCoord h (p.y + p.vy) } := by
  simp only [stepParticle, wrapCoord]
  split <;> split <;> split <;> split <;> rfl

/-- Wraparound lands in the closed interval `[0, dim]`. -/
theorem wrapCoord_bounds (dim c : ℚ) (hd : 0 ≤ dim) :
    0 ≤ wrapCoord dim c ∧ wrapCoord dim c ≤ dim := by
  simp only [wrapCoord]
  split <;> split <;> constructor <;> linarith

/-- Wraparound either keeps the coordinate or snaps it exactly to an
endpoint. -/
theorem wrapCoord_cases (dim c : ℚ) :
    wrapCoord dim c = c ∨ wrapCoord dim c = 0 ∨ wrapCoord dim c = dim := by
  simp only [wrapCoord]
  split <;> split <;> simp

/-- Membership in the index-pair enumeration of the nested loop. -/
theorem mem_pairsFrom (n i j : ℕ) :
    (i, j) ∈ pairsFrom n ↔ i < j ∧ j < n := by
  simp only [pairsFrom, List.mem_flatMap, List.mem_range, List.mem_map]
  constructor
  · rintro ⟨a, ha, b, hb, hab⟩
    rw [List.mem_range'_1] at hb
    cases hab
    omega
  · rintro ⟨hij, hjn⟩
    refine ⟨i, by omega, j, ?_, rfl⟩
    rw [List.mem_range'_1]
    omega

/-- The nested loop visits each index pair at most once. -/
theorem pairsFrom_nodup (n : ℕ) : (pairsFrom n).Nodup := by
  refine List.nodup_flatMap.2 ⟨?_, ?_⟩
  · intro i _
    exact (List.nodup_range' _ _).map fun a b hab => by
      simpa using congrArg Prod.snd hab
  · refine List.Pairwise.imp ?_ (List.pairwise_lt_range n)
    intro a b hab
    simp only [Function.onFun, List.disjoint_left, List.mem_map]
    rintro ⟨x, y⟩ ⟨u, hu, huv⟩ ⟨v, hv, hvv⟩
    cases huv
    cases hvv
    omega

end ParticleField

namespace ParticleField

/-! ### Claim theorems -/

/-- A particle that wraps on both axes in the same frame on a 100×100
surface: `x` crosses 0 going left while `y` crosses the height going
down. -/
def bothWrapParticle : Particle := ⟨1/10, 999/10, -3/10, 3/10, 2, 1/2, true⟩

/-- C3: in the per-frame update each coordinate first has its velocity
component added; then, per axis independently and only after both axes
are updated, a coordinate strictly below 0 is set to the dimension and
a coordinate strictly above the dimension is set to 0 — the sequential
loop body equals the add-then-wrap-per-axis description — and a
particle can wrap on both axes in the same frame. -/
theorem wraparound_rule (w h : ℚ) (p : Particle) :
    stepParticle w h p =
      { p with x := wrapCoord w (p.x + p.vx), y := wrapCoord h (p.y + p.vy) } ∧
    (stepParticle 100 100 bothWrapParticle).x = 100 ∧
    (stepParticle 100 100 bothWrapParticle).y = 0 := by
  refine ⟨stepParticle_eq_wrap w h p, ?_, ?_⟩ <;>
    norm_num [stepParticle, bothWrapParticle]

/-- C7: the per-frame update changes only particle positions — the
velocity components, radius, opacity and color chosen at creation are
untouched — it is a pointwise map that allocates no new particles, and
the resize handler leaves the particle collection itself unchanged. -/
theorem immutable_frame (w h : ℚ) (p : Particle)
    (ps : List Particle) (s : EngineState) (nw nh : ℚ) :
    (stepParticle w h p).vx = p.vx ∧ (stepParticle w h p).vy = p.vy ∧
    (stepParticle w h p).radius = p.radius ∧
    (stepParticle w h p).opacity = p.opacity ∧
    (stepParticle w h p).color = p.color ∧
    updateParticles w h ps = ps.map (stepParticle w h) ∧
    (updateParticles w h ps).length = ps.length ∧
    (resizeCanvas s nw nh).particles = s.particles := by
  refine ⟨?_, ?_, ?_, ?_, ?_, rfl, by simp [updateParticles], rfl⟩ <;>
    (simp only [stepParticle]; split <;> split <;> split <;> split <;> rfl)

/-- C8: the resize handler updates only the recorded surface
dimensions; it never touches the particles, and resizing to the
current dimensions is the identity on the whole state. -/
theorem resize_frame (s : EngineState) (nw nh : ℚ) :
    (resizeCanvas s nw nh).particles = s.particles ∧
    (resizeCanvas s nw nh).width = nw ∧
    (resizeCanvas s nw nh).height = nh ∧
    resizeCanvas s s.width s.height = s :=
  ⟨rfl, rfl, rfl, rfl⟩

/-- C9: `createParticles` builds exactly `NUM_PARTICLES = 80`
particles, and a full animation tick (update followed by render)
preserves the size of the collection. -/
theorem count_invariant (w h : ℚ) (rand : ℕ → Fin 7 → ℚ) (s : EngineState) :
    (createParticles w h rand).length = NUM_PARTICLES ∧
    NUM_PARTICLES = 80 ∧
    ((tick s).1).particles.length = s.particles.length :=
  ⟨by simp [createParticles], rfl, by simp [tick, updateParticles]⟩

end ParticleField

namespace ParticleField

/-- A particle whose update crosses the left edge of a 100×100
surface: `x` becomes `0.1 - 0.3 = -0.2 < 0`, so the wraparound sets it
to `x = width` exactly. -/
def leftCrossParticle : Particle := ⟨1/10, 50, -3/10, 0, 2, 1/2, true⟩

/-- C1 counterexample: after one per-frame update on a 100×100 surface
the collection contains a particle with `x = 100 = width`, so the
claimed half-open bound `x < width` fails. -/
theorem bounds_half_open_cex :
    ¬ (∀ q ∈ updateParticles 100 100 [leftCrossParticle], q.x < 100) := by
  intro hq
  have h := hq (stepParticle 100 100 leftCrossParticle)
    (by simp [updateParticles])
  norm_num [stepParticle, leftCrossParticle] at h

/-- C1 amended: after every per-frame update, every particle of the
updated collection satisfies the closed bounds `0 ≤ x ≤ width` and
`0 ≤ y ≤ height` (the half-open right bound of the claim is not
maintained: a leftward wrap lands exactly on `x = width`). -/
theorem bounds_invariant_closed (w h : ℚ) (ps : List Particle) (q : Particle)
    (hw : 0 ≤ w) (hh : 0 ≤ h) (hq : q ∈ updateParticles w h ps) :
    0 ≤ q.x ∧ q.x ≤ w ∧ 0 ≤ q.y ∧ q.y ≤ h := by
  simp only [updateParticles, List.mem_map] at hq
  obtain ⟨p, _, rfl⟩ := hq
  rw [stepParticle_eq_wrap]
  obtain ⟨h1, h2⟩ := wrapCoord_bounds w (p.x + p.vx) hw
  obtain ⟨h3, h4⟩ := wrapCoord_bounds h (p.y + p.vy) hh
  exact ⟨h1, h2, h3, h4⟩

/-- Witness for the amended C1 bound at a concrete input. -/
theorem bounds_invariant_closed_witness :
    0 ≤ (stepParticle 100 100 leftCrossParticle).x ∧
    (stepParticle 100 100 leftCrossParticle).x ≤ 100 ∧
    0 ≤ (stepParticle 100 100 leftCrossParticle).y ∧
    (stepParticle 100 100 leftCrossParticle).y ≤ 100 :=
  bounds_invariant_closed 100 100 [leftCrossParticle]
    (stepParticle 100 100 leftCrossParticle) (by norm_num) (by norm_num)
    (by simp [updateParticles])

/-- The particle of the wraparound test at width `w`:
`x = w - 0.05`, `vx = 0.3`. -/
def nearRightAt (w : ℚ) : Particle := ⟨w - 1/20, 50, 3/10, 0, 2, 1/2, true⟩

/-- C2 counterexample: with `width = 100`, one update of the particle
at `x = width - 0.05` with `vx = 0.3` yields `x = 0`, not the claimed
`x = 0.25`: the overshoot past the edge is discarded, not carried
over. -/
theorem wraparound_value_cex :
    (stepParticle 100 100 (nearRightAt 100)).x = 0 ∧
    (stepParticle 100 100 (nearRightAt 100)).x ≠ 1/4 := by
  norm_num [stepParticle, nearRightAt]

/-- C2 amended: for any positive width, one update of the particle at
`x = width - 0.05` with `vx = 0.3` yields `x = 0` — which lies in
`[0, 0.3)` and differs from `width`, so the coordinate is wrapped, not
clamped — rather than the modular value `0.25`. -/
theorem wraparound_value (w h : ℚ) (hw : 0 < w) :
    (stepParticle w h (nearRightAt w)).x = 0 ∧
    0 ≤ (stepParticle w h (nearRightAt w)).x ∧
    (stepParticle w h (nearRightAt w)).x < 3/10 ∧
    (stepParticle w h (nearRightAt w)).x ≠ w := by
  have h1 : ¬ ((w - 1/20) + 3/10 < 0) := by linarith
  have e : wrapCoord w ((w - 1/20) + 3/10) = 0 := by
    simp only [wrapCoord, if_neg h1]
    rw [if_pos (show (w - 1/20) + 3/10 > w by linarith)]
  have hx : (stepParticle w h (nearRightAt w)).x = 0 := by
    rw [stepParticle_eq_wrap]
    simpa [nearRightAt] using e
  refine ⟨hx, by rw [hx], by rw [hx]; norm_num, by rw [hx]; linarith⟩

/-- Witness for the amended C2 statement at width 100. -/
theorem wraparound_value_witness :
    (stepParticle 100 100 (nearRightAt 100)).x = 0 ∧
    0 ≤ (stepParticle 100 100 (nearRightAt 100)).x ∧
    (stepParticle 100 100 (nearRightAt 100)).x < 3/10 ∧
    (stepParticle 100 100 (nearRightAt 100)).x ≠ 100 :=
  wraparound_value 100 100 (by norm_num)

/-- C10: for a particle with per-axis speed at most the dimension and
coordinates in the closed box before the update, the update keeps each
coordinate in the closed interval including both endpoints; a wrapped
coordinate is set exactly to `0` or exactly to the dimension, and the
boundary value `x = width` is a fixed point of the wraparound check. -/
theorem closed_interval_invariant (w h : ℚ) (p : Particle)
    (hx0 : 0 ≤ p.x) (hx1 : p.x ≤ w) (hy0 : 0 ≤ p.y) (hy1 : p.y ≤ h)
    (hvx : |p.vx| ≤ w) (hvy : |p.vy| ≤ h) :
    (0 ≤ (stepParticle w h p).x ∧ (stepParticle w h p).x ≤ w) ∧
    (0 ≤ (stepParticle w h p).y ∧ (stepParticle w h p).y ≤ h) ∧
    ((stepParticle w h p).x = p.x + p.vx ∨ (stepParticle w h p).x = 0 ∨
      (stepParticle w h p).x = w) ∧
    ((stepParticle w h p).y = p.y + p.vy ∨ (stepParticle w h p).y = 0 ∨
      (stepParticle w h p).y = h) ∧
    wrapCoord w w = w := by
  have hw : 0 ≤ w := le_trans hx0 hx1
  have hh : 0 ≤ h := le_trans hy0 hy1
  rw [stepParticle_eq_wrap]
  refine ⟨wrapCoord_bounds w _ hw, wrapCoord_bounds h _ hh,
    wrapCoord_cases w _, wrapCoord_cases h _, ?_⟩
  simp only [wrapCoord]
  split_ifs <;> first | rfl | linarith

/-- Witness for C10, at a particle that wraps on both axes and lands
exactly on `x = width` (so the endpoint is reached). -/
theorem closed_interval_invariant_witness :
    (0 ≤ (stepParticle 100 100 bothWrapParticle).x ∧
      (stepParticle 100 100 bothWrapParticle).x ≤ 100) ∧
    (0 ≤ (stepParticle 100 100 bothWrapParticle).y ∧
      (stepParticle 100 100 bothWrapParticle).y ≤ 100) ∧
    ((stepParticle 100 100 bothWrapParticle).x =
        bothWrapParticle.x + bothWrapParticle.vx ∨
      (stepParticle 100 100 bothWrapParticle).x = 0 ∨
      (stepParticle 100 100 bothWrapParticle).x = 100) ∧
    ((stepParticle 100 100 bothWrapParticle).y =
        bothWrapParticle.y + bothWrapParticle.vy ∨
      (stepParticle 100 100 bothWrapParticle).y = 0 ∨
      (stepParticle 100 100 bothWrapParticle).y = 100) ∧
    wrapCoord 100 100 = 100 :=
  closed_interval_invariant 100 100 bothWrapParticle
    (by norm_num [bothWrapParticle]) (by norm_num [bothWrapParticle])
    (by norm_num [bothWrapParticle]) (by norm_num [bothWrapParticle])
    (by norm_num [bothWrapParticle, abs_le])
    (by norm_num [bothWrapParticle, abs_le])

end ParticleField

namespace ParticleField

/-- Squared distance is symmetric in its two particles. -/
theorem dist2_comm (a b : Particle) : dist2 a b = dist2 b a := by
  simp only [dist2]
  ring

/-- The Boolean link decision on the squared distance coincides with
the source's `Math.sqrt(dx*dx+dy*dy) < MAX_DISTANCE` over the reals. -/
theorem linkNear_iff_sqrt (a b : Particle) :
    linkNear a b = true ↔ Real.sqrt ((dist2 a b : ℚ) : ℝ) < 140 := by
  rw [Real.sqrt_lt' (by norm_num : (0:ℝ) < 140)]
  simp only [linkNear, MAX_DISTANCE, decide_eq_true_eq]
  rw [show ((140:ℝ))^2 = (((140 * 140 : ℚ) : ℝ)) by norm_num]
  exact ⟨fun hlt => by exact_mod_cast hlt, fun hlt => by exact_mod_cast hlt⟩

/-- C5: the render strokes a line between indices `i` and `j` iff
`i < j`, both indices are in range, and the Euclidean distance of the
two particles is strictly below 140; the decision is symmetric in the
two particles, and the pair list is duplicate-free, so each unordered
pair is drawn at most once (exactly once when near). -/
theorem link_decision (ps : List Particle) (i j : ℕ) (a b : Particle) :
    ((i, j) ∈ drawnLinks ps ↔
      i < j ∧ j < ps.length ∧
      Real.sqrt ((dist2 (ps.getD i defaultParticle)
        (ps.getD j defaultParticle) : ℚ) : ℝ) < 140) ∧
    linkNear a b = linkNear b a ∧
    (drawnLinks ps).Nodup ∧
    ((i, j) ∈ drawnLinks ps →
      @List.count (ℕ × ℕ) instBEqOfDecidableEq (i, j) (drawnLinks ps) = 1) := by
  have hnd : (drawnLinks ps).Nodup :=
    (pairsFrom_nodup ps.length).filter _
  refine ⟨?_, ?_, hnd, fun hm => List.count_eq_one_of_mem hnd hm⟩
  · rw [drawnLinks, List.mem_filter, mem_pairsFrom]
    rw [show ps.getD (i, j).1 defaultParticle = ps.getD i defaultParticle from rfl,
      show ps.getD (i, j).2 defaultParticle = ps.getD j defaultParticle from rfl]
    rw [linkNear_iff_sqrt (ps.getD i defaultParticle) (ps.getD j defaultParticle)]
    tauto
  · simp only [linkNear, dist2_comm a b]

end ParticleField

namespace ParticleField

/-- C6: the alpha of a drawn link at Euclidean distance `d < 140` is
`(1 - d/140) * 0.25`; it is strictly positive, at most `0.25`,
strictly decreasing in the distance, and attains `0.25` exactly at
distance `0`. -/
theorem link_alpha (d e : ℚ) (hd0 : 0 ≤ d) (hd : d < 140) (he : e < 140)
    (hde : d < e) :
    linkAlpha d = (1 - d / 140) * (25/100) ∧
    0 < linkAlpha d ∧ linkAlpha d ≤ 25/100 ∧
    linkAlpha e < linkAlpha d ∧
    (linkAlpha d = 25/100 ↔ d = 0) := by
  simp only [linkAlpha, MAX_DISTANCE]
  refine ⟨by norm_num, by nlinarith, by nlinarith, by nlinarith, ?_⟩
  constructor
  · intro hh
    nlinarith
  · intro hh
    rw [hh]
    norm_num

/-- Witness for C6 at distances `d = 0` and `e = 70`. -/
theorem link_alpha_witness :
    linkAlpha 0 = (1 - 0 / 140) * (25/100) ∧
    0 < linkAlpha 0 ∧ linkAlpha 0 ≤ 25/100 ∧
    linkAlpha 70 < linkAlpha 0 ∧
    (linkAlpha 0 = 25/100 ↔ (0:ℚ) = 0) :=
  link_alpha 0 70 (by norm_num) (by norm_num) (by norm_num) (by norm_num)

/-- Two particles close enough (distance `10√2 < 140`) for a link,
used to exhibit the drawing order of a frame. -/
def demoParticles : List Particle :=
  [⟨10, 10, 0, 0, 2, 1/2, true⟩, ⟨20, 20, 0, 0, 2, 1/2, false⟩]

/-- C4 counterexample: in the frame rendered for two linked particles,
a particle circle is issued before the link line, so the claimed order
"links before circles" is violated. -/
theorem frame_order_cex :
    noCircleBeforeLine (drawParticles 100 100 demoParticles) = false := by
  norm_num [noCircleBeforeLine, drawParticles, demoParticles, circleCmds,
    lineCmds, drawnLinks, pairsFrom, linkNear, dist2, defaultParticle,
    MAX_DISTANCE, List.range_succ, List.range', DrawCmd.isCircle,
    DrawCmd.isLine]

/-- C4 amended: every tick updates positions first and then renders,
and exactly one next tick is scheduled; within the render, the surface
is cleared, then the particle circles are drawn, and the proximity
links are drawn after the circles (not before, as claimed). -/
theorem frame_order (s : EngineState) (w h : ℚ) (ps : List Particle) (n : ℕ) :
    tick s = ({ s with particles := updateParticles s.width s.height s.particles },
      drawParticles s.width s.height
        (updateParticles s.width s.height s.particles)) ∧
    drawParticles w h ps =
      DrawCmd.clearRect 0 0 w h :: (circleCmds ps ++ lineCmds ps) ∧
    frames s (n + 1) = (tick (frames s n)).1 :=
  ⟨rfl, rfl, rfl⟩

end ParticleField
